import Mathlib

/-!
Verification of the personality / connection core of the Bulb-AI repository.

The embedding mirrors, over exact rational arithmetic:
  * `PersonalityStorage` (src/core/personality/personality_storage.ts):
    trait and mood mutation with clamping into [0,1];
  * `PersonalityUpdater` (the updater module): `processEvent`,
    `decayPersonality`, emotional memory;
  * `ConnectionManager` (src/core/personality/personality_connect.ts):
    directed connections, interaction history, the two default impact rules.

JavaScript `Map` objects become association lists keyed by `String`, with
`Map.set` replacing the first matching key in place (insertion order kept)
or appending at the end, exactly as `Map` iteration order behaves.
-/

namespace BulbAI

/-- First-match association-list lookup, the model of `Map.get`. -/
def lookupA {α : Type} : List (String × α) → String → Option α
  | [], _ => none
  | (k', v) :: rest, k => if k' = k then some v else lookupA rest k

/-- Model of `Map.set`: replace the first entry with the key, else append. -/
def mapSet {α : Type} : List (String × α) → String → α → List (String × α)
  | [], k, v => [(k, v)]
  | (k', v') :: rest, k, v =>
      if k' = k then (k, v) :: rest else (k', v') :: mapSet rest k v

/-- Model of `Map.delete`: drop every entry with the key. -/
def removeA {α : Type} (m : List (String × α)) (k : String) : List (String × α) :=
  m.filter (fun p => p.1 ≠ k)

theorem lookupA_mapSet_self {α : Type} (m : List (String × α)) (k : String) (v : α) :
    lookupA (mapSet m k v) k = some v := by
  induction m with
  | nil => simp [mapSet, lookupA]
  | cons hd tl ih =>
      by_cases h : hd.1 = k
      · simp [mapSet, h, lookupA]
      · simpa [mapSet, h, lookupA] using ih

theorem mem_mapSet {α : Type} {m : List (String × α)} {k : String} {v : α}
    {x : String × α} (hx : x ∈ mapSet m k v) : x ∈ m ∨ x = (k, v) := by
  induction m with
  | nil => simpa [mapSet] using hx
  | cons hd tl ih =>
      obtain ⟨k', v'⟩ := hd
      by_cases h : k' = k
      · simp only [mapSet, if_pos h, List.mem_cons] at hx
        rcases hx with h1 | h2
        · exact Or.inr h1
        · exact Or.inl (List.mem_cons_of_mem _ h2)
      · simp only [mapSet, if_neg h, List.mem_cons] at hx
        rcases hx with h1 | h2
        · exact Or.inl (h1 ▸ List.mem_cons_self _ _)
        · rcases ih h2 with h3 | h3
          · exact Or.inl (List.mem_cons_of_mem _ h3)
          · exact Or.inr h3

theorem mapSet_lookup_self {α : Type} {m : List (String × α)} {k : String} {v : α}
    (h : lookupA m k = some v) : mapSet m k v = m := by
  induction m with
  | nil => simp [lookupA] at h
  | cons hd tl ih =>
      obtain ⟨k', v'⟩ := hd
      by_cases hk : k' = k
      · simp only [lookupA, if_pos hk, Option.some.injEq] at h
        simp [mapSet, if_pos hk, hk, h]
      · simp only [lookupA, if_neg hk] at h
        simp [mapSet, if_neg hk, ih h]

theorem lookupA_none_keys {α : Type} {m : List (String × α)} {k : String}
    (h : lookupA m k = none) : ∀ x ∈ m, x.1 ≠ k := by
  induction m with
  | nil => intro x hx; simp at hx
  | cons hd tl ih =>
      obtain ⟨k', v'⟩ := hd
      by_cases hk : k' = k
      · simp [lookupA, if_pos hk] at h
      · simp only [lookupA, if_neg hk] at h
        intro x hx
        rcases List.mem_cons.mp hx with h1 | h2
        · subst h1; exact hk
        · exact ih h x h2

theorem lookupA_removeA {α : Type} (m : List (String × α)) (k : String) :
    lookupA m k = none → removeA m k = m := by
  intro h
  refine List.filter_eq_self.mpr ?_
  intro a ha
  simpa using lookupA_none_keys h a ha

/-! ### Data model (src/core/personality/personality_storage.ts) -/

/-- `PersonalityTrait` from personality_storage.ts: a named scalar on a 0-1
scale with a category and description. -/
structure PersonalityTrait where
  name : String
  value : ℚ
  category : String
  description : String
deriving DecidableEq

/-- The four mood fields of a `Personality`. -/
structure Mood where
  happiness : ℚ
  energy : ℚ
  stress : ℚ
  dominance : ℚ
deriving DecidableEq

/-- `Personality` from personality_storage.ts. -/
structure Personality where
  id : String
  baseTraits : List (String × PersonalityTrait)
  adaptiveTraits : List (String × PersonalityTrait)
  mood : Mood
  relationships : List (String × ℚ)
deriving DecidableEq

/-- `Math.max(0, Math.min(1, value))`, the clamp used by the store. -/
def clamp01 (x : ℚ) : ℚ := max 0 (min 1 x)

theorem clamp01_mem (x : ℚ) : 0 ≤ clamp01 x ∧ clamp01 x ≤ 1 := by
  constructor
  · exact le_max_left 0 _
  · exact max_le (by norm_num) (min_le_left 1 x)

/-- `PersonalityStorage.updateTrait`: clamp into [0,1] and write into the
adaptive or base trait map; silent no-op when the agent or the named trait
does not exist. The storage state is the `personalities` map. -/
def updateTrait (ps : List (String × Personality)) (agentId traitName : String)
    (value : ℚ) (isAdaptive : Bool) : List (String × Personality) :=
  match lookupA ps agentId with
  | none => ps
  | some p =>
      let traitMap := if isAdaptive then p.adaptiveTraits else p.baseTraits
      match lookupA traitMap traitName with
      | none => ps
      | some tr =>
          let tr' := { tr with value := clamp01 value }
          let traitMap' := mapSet traitMap traitName tr'
          let p' := if isAdaptive then { p with adaptiveTraits := traitMap' }
                    else { p with baseTraits := traitMap' }
          mapSet ps agentId p'

/-- A partial mood map (`Partial<Personality['mood']>`). -/
structure MoodUpdates where
  happiness : Option ℚ := none
  energy : Option ℚ := none
  stress : Option ℚ := none
  dominance : Option ℚ := none
deriving DecidableEq

/-- One field of `updateMood`: overwrite with the clamped value when the key
is present, keep the current value otherwise. -/
def updateMoodField (cur : ℚ) : Option ℚ → ℚ
  | none => cur
  | some v => clamp01 v

/-- `PersonalityStorage.updateMood`: clamp each present field into [0,1] and
overwrite; silent no-op when the agent does not exist. -/
def updateMood (ps : List (String × Personality)) (agentId : String)
    (mu : MoodUpdates) : List (String × Personality) :=
  match lookupA ps agentId with
  | none => ps
  | some p =>
      let m := p.mood
      let m' : Mood :=
        { happiness := updateMoodField m.happiness mu.happiness
          energy := updateMoodField m.energy mu.energy
          stress := updateMoodField m.stress mu.stress
          dominance := updateMoodField m.dominance mu.dominance }
      mapSet ps agentId { p with mood := m' }

/-! ### PersonalityUpdater (the updater module) -/

/-- `EmotionalEvent`: transient input. The opaque `context` map is omitted. -/
structure EmotionalEvent where
  type : String
  intensity : ℚ
  valence : ℚ
  source : String
deriving DecidableEq

/-- `PersonalityUpdate`: the computed diff returned by the updater. -/
structure PersonalityUpdate where
  traitUpdates : List (String × ℚ)
  moodUpdates : MoodUpdates
  relationshipUpdates : List (String × ℚ)
deriving DecidableEq

/-- `decayRate = 0.1`. -/
def decayRate : ℚ := 1 / 10

/-- `adaptationRate = 0.05`. -/
def adaptationRate : ℚ := 5 / 100

/-- `PersonalityUpdater.calculateTraitUpdates`: the switch on `event.type`
(the personality argument of the source is unused there). -/
def calculateTraitUpdates (event : EmotionalEvent) : List (String × ℚ) :=
  if event.type = "socialInteraction" then
    [("sociability", event.valence * adaptationRate)]
  else if event.type = "challenge" then
    [("resilience", event.intensity * adaptationRate)]
  else if event.type = "learning" then
    [("curiosity", event.valence * adaptationRate)]
  else []

/-- `PersonalityUpdater.calculateMoodUpdates`: base mood impact plus the
conflict-specific adjustment. -/
def calculateMoodUpdates (event : EmotionalEvent) : MoodUpdates :=
  let happiness := event.valence * event.intensity
  let energy := event.intensity * (if 0 < event.valence then 1 else -(1/2))
  let stress := event.intensity * (if event.valence < 0 then 1 else -(1/2))
  if event.type = "conflict" then
    { happiness := some happiness
      energy := some energy
      stress := some (min 1 (stress + 2/10))
      dominance := some (if 0 < event.valence then 1/10 else -(1/10)) }
  else
    { happiness := some happiness
      energy := some energy
      stress := some stress
      dominance := none }

/-- `PersonalityUpdater.calculateRelationshipUpdates`: only when
`event.source` is truthy (a non-empty string) and differs from the
personality's id; returns the clamped absolute new value keyed by the
source. -/
def calculateRelationshipUpdates (p : Personality) (event : EmotionalEvent) :
    List (String × ℚ) :=
  if event.source ≠ "" ∧ event.source ≠ p.id then
    let currentRelationship := (lookupA p.relationships event.source).getD 0
    let update := event.valence * event.intensity * adaptationRate
    [(event.source, max (-1) (min 1 (currentRelationship + update)))]
  else []

/-- The updater's per-agent emotional-memory log. -/
def EmotionalMemory : Type := List (String × List EmotionalEvent)

/-- `PersonalityUpdater.processEvent`: append the event to the agent's
emotional-memory log, then compute the three delta components. Returns the
update together with the new memory state. -/
def processEvent (mem : EmotionalMemory) (p : Personality)
    (event : EmotionalEvent) : PersonalityUpdate × EmotionalMemory :=
  let log := (lookupA mem p.id).getD []
  let mem' := mapSet mem p.id (log ++ [event])
  ({ traitUpdates := calculateTraitUpdates event
     moodUpdates := calculateMoodUpdates event
     relationshipUpdates := calculateRelationshipUpdates p event }, mem')

/-- `PersonalityUpdater.decayPersonality` trait part: for every adaptive
trait that has a matching base trait, delta = (base − adaptive) · decayRate;
adaptive traits without a base trait are skipped by the source. -/
def decayTraitUpdates (adaptive base : List (String × PersonalityTrait)) :
    List (String × ℚ) :=
  adaptive.filterMap (fun nt =>
    match lookupA base nt.1 with
    | some baseTrait => some (nt.1, (baseTrait.value - nt.2.value) * decayRate)
    | none => none)

/-- `PersonalityUpdater.decayPersonality`: pull adaptive traits toward base
and each mood field toward 0.5, at `decayRate`; no relationship updates. -/
def decayPersonality (p : Personality) : PersonalityUpdate :=
  { traitUpdates := decayTraitUpdates p.adaptiveTraits p.baseTraits
    moodUpdates :=
      { happiness := some ((1/2 - p.mood.happiness) * decayRate)
        energy := some ((1/2 - p.mood.energy) * decayRate)
        stress := some ((1/2 - p.mood.stress) * decayRate)
        dominance := some ((1/2 - p.mood.dominance) * decayRate) }
    relationshipUpdates := [] }

/-- `PersonalityUpdater.getEmotionalMemory`: the full log, or
`memory.slice(-limit)` when `limit` is truthy (a JavaScript `0` is falsy and
returns the full log). -/
def getEmotionalMemory (mem : EmotionalMemory) (personalityId : String)
    (limit : Option ℕ) : List EmotionalEvent :=
  let memory := (lookupA mem personalityId).getD []
  match limit with
  | none => memory
  | some l => if l = 0 then memory else memory.drop (memory.length - l)

/-- `PersonalityUpdater.clearEmotionalMemory`. -/
def clearEmotionalMemory (mem : EmotionalMemory) (personalityId : String) :
    EmotionalMemory :=
  removeA mem personalityId

/-! ### ConnectionManager (src/core/personality/personality_connect.ts) -/

/-- `ConnectionStrength`: a directed connection record. -/
structure ConnectionStrength where
  value : ℚ
  trust : ℚ
  familiarity : ℚ
  lastInteraction : ℚ
deriving DecidableEq

/-- The `impact` field of an `AgentInteraction`. -/
structure InteractionImpact where
  trust : ℚ
  familiarity : ℚ
  connectionStrength : ℚ
deriving DecidableEq

/-- `AgentInteraction`: the opaque `content` field is omitted. -/
structure AgentInteraction where
  type : String
  sourceId : String
  targetId : String
  timestamp : ℚ
  impact : InteractionImpact
deriving DecidableEq

/-- A `Partial<ConnectionStrength>` as produced by a rule's impact. -/
structure PartialConnection where
  value : Option ℚ := none
  trust : Option ℚ := none
  familiarity : Option ℚ := none
  lastInteraction : Option ℚ := none

/-- `Object.assign(connection, updates)`. -/
def assignConnection (c : ConnectionStrength) (u : PartialConnection) :
    ConnectionStrength :=
  { value := u.value.getD c.value
    trust := u.trust.getD c.trust
    familiarity := u.familiarity.getD c.familiarity
    lastInteraction := u.lastInteraction.getD c.lastInteraction }

/-- `ConnectionRule`: a predicate over interactions paired with an impact. -/
structure ConnectionRule where
  condition : AgentInteraction → Bool
  impact : AgentInteraction → ConnectionStrength → PartialConnection

/-- The positive default rule (`impact.connectionStrength > 0`). -/
def positiveRule : ConnectionRule :=
  { condition := fun i => decide (0 < i.impact.connectionStrength)
    impact := fun i current =>
      { trust := some (min 1 (current.trust + i.impact.trust))
        familiarity := some (min 1 (current.familiarity + i.impact.familiarity))
        value := some (min 1 (current.value + i.impact.connectionStrength)) } }

/-- The negative default rule (`impact.connectionStrength < 0`); familiarity
is untouched. -/
def negativeRule : ConnectionRule :=
  { condition := fun i => decide (i.impact.connectionStrength < 0)
    impact := fun i current =>
      { trust := some (max 0 (current.trust + i.impact.trust))
        value := some (max (-1) (current.value + i.impact.connectionStrength)) } }

/-- The rule list seeded by `initializeDefaultRules`, in registration
order. -/
def defaultRules : List ConnectionRule := [positiveRule, negativeRule]

/-- The `ConnectionManager` state: directed adjacency, per-ordered-pair
interaction history, and the ordered rule list. -/
structure ConnectionManager where
  connections : List (String × List (String × ConnectionStrength))
  interactionHistory : List (String × List AgentInteraction)
  rules : List ConnectionRule

/-- A freshly constructed manager (empty maps, default rules). -/
def ConnectionManager.new : ConnectionManager :=
  { connections := [], interactionHistory := [], rules := defaultRules }

/-- `ConnectionManager.getConnection`. -/
def getConnection (cm : ConnectionManager) (sourceId targetId : String) :
    Option ConnectionStrength :=
  (lookupA cm.connections sourceId).bind (fun inner => lookupA inner targetId)

/-- The `Partial<ConnectionStrength>` accepted by `connect` as
`initialStrength`. -/
structure InitialStrength where
  value : Option ℚ := none
  trust : Option ℚ := none
  familiarity : Option ℚ := none

/-- `ConnectionManager.connect`: create or overwrite the (source, target)
record with defaults `value=0, trust=0.1, familiarity=0`, overridable via
`initialStrength`, `lastInteraction` set to the current time. The overrides
are stored exactly as given. -/
def connect (cm : ConnectionManager) (sourceId targetId : String)
    (initialStrength : InitialStrength) (now : ℚ) : ConnectionManager :=
  let connection : ConnectionStrength :=
    { value := initialStrength.value.getD 0
      trust := initialStrength.trust.getD (1/10)
      familiarity := initialStrength.familiarity.getD 0
      lastInteraction := now }
  let inner := (lookupA cm.connections sourceId).getD []
  { cm with connections :=
      mapSet cm.connections sourceId (mapSet inner targetId connection) }

/-- `ConnectionManager.disconnect`: delete the record when present; the
`disconnected` notification is emitted unconditionally. The second component
collects the emitted topic names. -/
def disconnect (cm : ConnectionManager) (sourceId targetId : String) :
    ConnectionManager × List String :=
  let connections' :=
    match lookupA cm.connections sourceId with
    | none => cm.connections
    | some inner => mapSet cm.connections sourceId (removeA inner targetId)
  ({ cm with connections := connections' }, ["disconnected"])

/-- `ConnectionManager.recordInteraction`: always append to the history at
key `sourceId-targetId`; when a connection exists, apply every matching rule
in order (each mutating the same record) and set `lastInteraction`. The
second component collects the emitted topic names. -/
def recordInteraction (cm : ConnectionManager) (i : AgentInteraction) :
    ConnectionManager × List String :=
  let key := i.sourceId ++ "-" ++ i.targetId
  let hist := (lookupA cm.interactionHistory key).getD []
  let interactionHistory' := mapSet cm.interactionHistory key (hist ++ [i])
  match getConnection cm i.sourceId i.targetId with
  | none =>
      ({ cm with interactionHistory := interactionHistory' }, [])
  | some connection =>
      let connection' :=
        (cm.rules.filter (fun r => r.condition i)).foldl
          (fun c r => assignConnection c (r.impact i c)) connection
      let connection'' := { connection' with lastInteraction := i.timestamp }
      let inner := (lookupA cm.connections i.sourceId).getD []
      ({ cm with
          connections :=
            mapSet cm.connections i.sourceId (mapSet inner i.targetId connection'')
          interactionHistory := interactionHistory' },
       ["connectionUpdated"])

/-! ### Driver plumbing: applying a `PersonalityUpdate` through the store

The updater returns deltas; the external driver applies them through the
store's clamping mutators (`updateTrait` / `updateMood`, passing
current + delta) and writes the already-clamped absolute relationship
values directly, as described by the spec's control flow. -/

/-- Apply one trait delta through `updateTrait` into the adaptive map
(current value + delta, clamped by the store; a missing trait is the
store's silent no-op). -/
def applyTraitDelta (ps : List (String × Personality)) (agentId : String)
    (nd : String × ℚ) : List (String × Personality) :=
  let cur :=
    match lookupA ps agentId with
    | some p => ((lookupA p.adaptiveTraits nd.1).map PersonalityTrait.value).getD 0
    | none => 0
  updateTrait ps agentId nd.1 (cur + nd.2) true

/-- Turn mood deltas into the absolute values passed to `updateMood`
(current + delta per present field). -/
def offsetMood (cur : Mood) (mu : MoodUpdates) : MoodUpdates :=
  { happiness := mu.happiness.map (fun d => cur.happiness + d)
    energy := mu.energy.map (fun d => cur.energy + d)
    stress := mu.stress.map (fun d => cur.stress + d)
    dominance := mu.dominance.map (fun d => cur.dominance + d) }

/-- Write the absolute relationship values returned by the updater. -/
def applyRelationshipUpdates (ps : List (String × Personality))
    (agentId : String) (rus : List (String × ℚ)) : List (String × Personality) :=
  match lookupA ps agentId with
  | none => ps
  | some p =>
      mapSet ps agentId
        { p with relationships :=
            rus.foldl (fun m kv => mapSet m kv.1 kv.2) p.relationships }

/-- `processEvent` on the stored personality followed by applying the
returned deltas through the store. -/
def processEventApply (ps : List (String × Personality)) (mem : EmotionalMemory)
    (agentId : String) (event : EmotionalEvent) :
    List (String × Personality) × EmotionalMemory :=
  match lookupA ps agentId with
  | none => (ps, mem)
  | some p =>
      let r := processEvent mem p event
      let ps1 := r.1.traitUpdates.foldl (fun acc nd => applyTraitDelta acc agentId nd) ps
      let ps2 :=
        match lookupA ps1 agentId with
        | some p1 => updateMood ps1 agentId (offsetMood p1.mood r.1.moodUpdates)
        | none => ps1
      let ps3 := applyRelationshipUpdates ps2 agentId r.1.relationshipUpdates
      (ps3, r.2)

/-- Combined simulation state for invariant claims. -/
structure SimState where
  store : List (String × Personality)
  cm : ConnectionManager
  mem : EmotionalMemory

/-- The mutating calls quantified over by the range invariant. -/
inductive SimOp where
  | updTrait (agentId traitName : String) (value : ℚ) (isAdaptive : Bool)
  | updMood (agentId : String) (mu : MoodUpdates)
  | procEvent (agentId : String) (event : EmotionalEvent)
  | recInteraction (i : AgentInteraction)

/-- One driver step. -/
def stepOp (s : SimState) : SimOp → SimState
  | .updTrait a t v b => { s with store := updateTrait s.store a t v b }
  | .updMood a mu => { s with store := updateMood s.store a mu }
  | .procEvent a e =>
      let r := processEventApply s.store s.mem a e
      { s with store := r.1, mem := r.2 }
  | .recInteraction i => { s with cm := (recordInteraction s.cm i).1 }

/-- A sequence of driver steps. -/
def runOps (s : SimState) (ops : List SimOp) : SimState := ops.foldl stepOp s

/-! ### Range invariants -/

/-- A trait value lies in [0,1]. -/
def TraitInv (t : PersonalityTrait) : Prop := 0 ≤ t.value ∧ t.value ≤ 1

/-- Every mood field lies in [0,1]. -/
def MoodInv (m : Mood) : Prop :=
  (0 ≤ m.happiness ∧ m.happiness ≤ 1) ∧ (0 ≤ m.energy ∧ m.energy ≤ 1) ∧
  (0 ≤ m.stress ∧ m.stress ≤ 1) ∧ (0 ≤ m.dominance ∧ m.dominance ≤ 1)

/-- A relationship strength lies in [-1,1]. -/
def RelInv (r : ℚ) : Prop := -1 ≤ r ∧ r ≤ 1

/-- All numeric fields of a personality lie in their declared ranges. -/
def PersonalityInv (p : Personality) : Prop :=
  (∀ x ∈ p.baseTraits, TraitInv x.2) ∧ (∀ x ∈ p.adaptiveTraits, TraitInv x.2) ∧
  MoodInv p.mood ∧ (∀ x ∈ p.relationships, RelInv x.2)

/-- A connection record lies in its declared ranges. -/
def ConnInv (c : ConnectionStrength) : Prop :=
  RelInv c.value ∧ (0 ≤ c.trust ∧ c.trust ≤ 1) ∧
  (0 ≤ c.familiarity ∧ c.familiarity ≤ 1)

/-- Every stored personality satisfies its range invariant. -/
def StoreInv (ps : List (String × Personality)) : Prop :=
  ∀ x ∈ ps, PersonalityInv x.2

/-- Every stored connection satisfies its range invariant. -/
def ConnectionsInv (cm : ConnectionManager) : Prop :=
  ∀ a ∈ cm.connections, ∀ b ∈ a.2, ConnInv b.2

/-- The whole simulation state is in range. -/
def SimInv (s : SimState) : Prop := StoreInv s.store ∧ ConnectionsInv s.cm

/-- An interaction whose impact components are sign-consistent with its
`connectionStrength`. -/
def GoodImpact (i : AgentInteraction) : Prop :=
  (0 < i.impact.connectionStrength → 0 ≤ i.impact.trust ∧ 0 ≤ i.impact.familiarity) ∧
  (i.impact.connectionStrength < 0 → i.impact.trust ≤ 0)

/-- The side condition on operations needed for the range invariant. -/
def GoodOp : SimOp → Prop
  | .recInteraction i => GoodImpact i
  | _ => True

theorem lookupA_mem {α : Type} {m : List (String × α)} {k : String} {v : α}
    (h : lookupA m k = some v) : (k, v) ∈ m := by
  induction m with
  | nil => simp [lookupA] at h
  | cons hd tl ih =>
      obtain ⟨k', v'⟩ := hd
      by_cases hk : k' = k
      · simp only [lookupA, if_pos hk, Option.some.injEq] at h
        subst hk; subst h; exact List.mem_cons_self _ _
      · simp only [lookupA, if_neg hk] at h
        exact List.mem_cons_of_mem _ (ih h)

theorem updateMoodField_mem {cur : ℚ} (h0 : 0 ≤ cur) (h1 : cur ≤ 1) (o : Option ℚ) :
    0 ≤ updateMoodField cur o ∧ updateMoodField cur o ≤ 1 := by
  cases o with
  | none => exact ⟨h0, h1⟩
  | some v => exact clamp01_mem v

theorem updateTrait_storeInv {ps : List (String × Personality)}
    (hinv : StoreInv ps) (agentId traitName : String) (value : ℚ)
    (isAdaptive : Bool) :
    StoreInv (updateTrait ps agentId traitName value isAdaptive) := by
  unfold updateTrait
  cases hp : lookupA ps agentId with
  | none => exact hinv
  | some p =>
      obtain ⟨hbase, hadapt, hmood, hrel⟩ := hinv _ (lookupA_mem hp)
      cases isAdaptive with
      | true =>
          simp only [Bool.true_eq_false, if_true]
          cases ht : lookupA p.adaptiveTraits traitName with
          | none => exact hinv
          | some tr =>
              intro x hx
              rcases mem_mapSet hx with hmem | heq
              · exact hinv x hmem
              · subst heq
                refine ⟨hbase, ?_, hmood, hrel⟩
                intro y hy
                rcases mem_mapSet hy with hmem2 | heq2
                · exact hadapt y hmem2
                · subst heq2; exact clamp01_mem value
      | false =>
          simp only [Bool.false_eq_true, if_false]
          cases ht : lookupA p.baseTraits traitName with
          | none => exact hinv
          | some tr =>
              intro x hx
              rcases mem_mapSet hx with hmem | heq
              · exact hinv x hmem
              · subst heq
                refine ⟨?_, hadapt, hmood, hrel⟩
                intro y hy
                rcases mem_mapSet hy with hmem2 | heq2
                · exact hbase y hmem2
                · subst heq2; exact clamp01_mem value

theorem updateMood_storeInv {ps : List (String × Personality)}
    (hinv : StoreInv ps) (agentId : String) (mu : MoodUpdates) :
    StoreInv (updateMood ps agentId mu) := by
  unfold updateMood
  cases hp : lookupA ps agentId with
  | none => exact hinv
  | some p =>
      intro x hx
      rcases mem_mapSet hx with hmem | heq
      · exact hinv x hmem
      · subst heq
        obtain ⟨hbase, hadapt, hmood, hrel⟩ := hinv _ (lookupA_mem hp)
        obtain ⟨hh, he, hs, hd⟩ := hmood
        exact ⟨hbase, hadapt,
          ⟨updateMoodField_mem hh.1 hh.2 _, updateMoodField_mem he.1 he.2 _,
           updateMoodField_mem hs.1 hs.2 _, updateMoodField_mem hd.1 hd.2 _⟩, hrel⟩

theorem calculateRelationshipUpdates_relInv (p : Personality)
    (event : EmotionalEvent) :
    ∀ x ∈ calculateRelationshipUpdates p event, RelInv x.2 := by
  intro x hx
  unfold calculateRelationshipUpdates at hx
  by_cases h : event.source ≠ "" ∧ event.source ≠ p.id
  · rw [if_pos h] at hx
    rcases List.mem_singleton.mp hx with rfl
    exact ⟨le_max_left _ _, max_le (by norm_num) (min_le_left _ _)⟩
  · rw [if_neg h] at hx
    simp at hx

theorem foldl_mapSet_inv {α : Type} {P : α → Prop} {m l : List (String × α)}
    (hm : ∀ x ∈ m, P x.2) (hl : ∀ x ∈ l, P x.2) :
    ∀ x ∈ l.foldl (fun acc kv => mapSet acc kv.1 kv.2) m, P x.2 := by
  induction l generalizing m with
  | nil => simpa using hm
  | cons hd tl ih =>
      simp only [List.foldl_cons]
      refine ih ?_ (fun x hx => hl x (List.mem_cons_of_mem _ hx))
      intro x hx
      rcases mem_mapSet hx with h | h
      · exact hm x h
      · rw [h]; exact hl hd (List.mem_cons_self _ _)

theorem foldl_preserve {α β : Type} {P : α → Prop} (f : α → β → α)
    (hf : ∀ a b, P a → P (f a b)) :
    ∀ (l : List β) (a : α), P a → P (l.foldl f a) := by
  intro l
  induction l with
  | nil => intro a ha; simpa using ha
  | cons hd tl ih =>
      intro a ha
      simp only [List.foldl_cons]
      exact ih _ (hf a hd ha)

theorem applyTraitDelta_storeInv {ps : List (String × Personality)}
    (hinv : StoreInv ps) (agentId : String) (nd : String × ℚ) :
    StoreInv (applyTraitDelta ps agentId nd) :=
  updateTrait_storeInv hinv agentId nd.1 _ true

theorem applyRelationshipUpdates_storeInv {ps : List (String × Personality)}
    (hinv : StoreInv ps) (agentId : String) {rus : List (String × ℚ)}
    (hrus : ∀ x ∈ rus, RelInv x.2) :
    StoreInv (applyRelationshipUpdates ps agentId rus) := by
  unfold applyRelationshipUpdates
  cases hp : lookupA ps agentId with
  | none => exact hinv
  | some p =>
      intro x hx
      rcases mem_mapSet hx with h | h
      · exact hinv x h
      · subst h
        obtain ⟨hbase, hadapt, hmood, hrel⟩ := hinv _ (lookupA_mem hp)
        exact ⟨hbase, hadapt, hmood, foldl_mapSet_inv hrel hrus⟩

theorem processEventApply_storeInv {ps : List (String × Personality)}
    {mem : EmotionalMemory} (hinv : StoreInv ps) (agentId : String)
    (event : EmotionalEvent) :
    StoreInv (processEventApply ps mem agentId event).1 := by
  unfold processEventApply
  cases hp : lookupA ps agentId with
  | none => exact hinv
  | some p =>
      dsimp only
      have h1 : StoreInv (List.foldl (fun acc nd => applyTraitDelta acc agentId nd) ps
          (processEvent mem p event).1.traitUpdates) :=
        foldl_preserve (P := StoreInv) _
          (fun a b ha => applyTraitDelta_storeInv ha agentId b) _ _ hinv
      have hrel : ∀ x ∈ (processEvent mem p event).1.relationshipUpdates, RelInv x.2 :=
        calculateRelationshipUpdates_relInv p event
      cases hq : lookupA (List.foldl (fun acc nd => applyTraitDelta acc agentId nd) ps
          (processEvent mem p event).1.traitUpdates) agentId with
      | none => exact applyRelationshipUpdates_storeInv h1 agentId hrel
      | some p1 =>
          exact applyRelationshipUpdates_storeInv
            (updateMood_storeInv h1 agentId _) agentId hrel

theorem recordInteraction_rules (cm : ConnectionManager) (i : AgentInteraction) :
    ((recordInteraction cm i).1).rules = cm.rules := by
  unfold recordInteraction
  cases hg : getConnection cm i.sourceId i.targetId <;> rfl

theorem defaultRules_fold_connInv {i : AgentInteraction} {conn : ConnectionStrength}
    (hconn : ConnInv conn) (hi : GoodImpact i) :
    ConnInv ((defaultRules.filter (fun r => r.condition i)).foldl
      (fun c r => assignConnection c (r.impact i c)) conn) := by
  obtain ⟨⟨hv1, hv2⟩, ⟨ht1, ht2⟩, ⟨hf1, hf2⟩⟩ := hconn
  rcases lt_trichotomy i.impact.connectionStrength 0 with hlt | heq | hgt
  · have hfil : defaultRules.filter (fun r => r.condition i) = [negativeRule] := by
      simp [defaultRules, List.filter_cons, positiveRule, negativeRule,
        hlt, asymm hlt]
    rw [hfil]
    simp only [List.foldl_cons, List.foldl_nil, assignConnection, negativeRule,
      Option.getD_some, Option.getD_none]
    have hit := hi.2 hlt
    exact ⟨⟨le_max_left _ _, max_le (by norm_num) (by linarith)⟩,
      ⟨le_max_left _ _, max_le (by norm_num) (by linarith)⟩, hf1, hf2⟩
  · have hfil : defaultRules.filter (fun r => r.condition i) = [] := by
      simp [defaultRules, List.filter_cons, positiveRule, negativeRule, heq]
    rw [hfil]
    exact ⟨⟨hv1, hv2⟩, ⟨ht1, ht2⟩, hf1, hf2⟩
  · have hfil : defaultRules.filter (fun r => r.condition i) = [positiveRule] := by
      simp [defaultRules, List.filter_cons, positiveRule, negativeRule,
        hgt, asymm hgt]
    rw [hfil]
    simp only [List.foldl_cons, List.foldl_nil, assignConnection, positiveRule,
      Option.getD_some, Option.getD_none]
    obtain ⟨hit, hif⟩ := hi.1 hgt
    exact ⟨⟨le_min (by norm_num) (by linarith), min_le_left _ _⟩,
      ⟨le_min (by norm_num) (by linarith), min_le_left _ _⟩,
      le_min (by norm_num) (by linarith), min_le_left _ _⟩

theorem recordInteraction_connInv {cm : ConnectionManager} {i : AgentInteraction}
    (hrules : cm.rules = defaultRules) (hinv : ConnectionsInv cm)
    (hi : GoodImpact i) : ConnectionsInv (recordInteraction cm i).1 := by
  unfold recordInteraction
  cases hg : getConnection cm i.sourceId i.targetId with
  | none => exact hinv
  | some conn =>
      obtain ⟨inner, hin, hconn⟩ := Option.bind_eq_some.mp hg
      have hconnInv : ConnInv conn :=
        hinv _ (lookupA_mem hin) _ (lookupA_mem hconn)
      dsimp only
      rw [hin, hrules]
      intro a ha
      rcases mem_mapSet ha with h | h
      · exact hinv a h
      · subst h
        intro b hb
        rcases mem_mapSet hb with h2 | h2
        · exact hinv _ (lookupA_mem hin) b h2
        · subst h2
          have hfold := defaultRules_fold_connInv hconnInv hi
          exact ⟨hfold.1, hfold.2.1, hfold.2.2⟩

theorem stepOp_inv {s : SimState} {op : SimOp} (hinv : SimInv s)
    (hrules : s.cm.rules = defaultRules) (hop : GoodOp op) :
    SimInv (stepOp s op) ∧ (stepOp s op).cm.rules = defaultRules := by
  obtain ⟨hstore, hconn⟩ := hinv
  cases op with
  | updTrait a t v b => exact ⟨⟨updateTrait_storeInv hstore a t v b, hconn⟩, hrules⟩
  | updMood a mu => exact ⟨⟨updateMood_storeInv hstore a mu, hconn⟩, hrules⟩
  | procEvent a e => exact ⟨⟨processEventApply_storeInv hstore a e, hconn⟩, hrules⟩
  | recInteraction i =>
      exact ⟨⟨hstore, recordInteraction_connInv hrules hconn hop⟩,
        (recordInteraction_rules _ _).trans hrules⟩

theorem runOps_inv {s : SimState} {ops : List SimOp} (hinv : SimInv s)
    (hrules : s.cm.rules = defaultRules) (hops : ∀ op ∈ ops, GoodOp op) :
    SimInv (runOps s ops) := by
  induction ops generalizing s with
  | nil => simpa [runOps] using hinv
  | cons hd tl ih =>
      have h := stepOp_inv hinv hrules (hops hd (List.mem_cons_self _ _))
      exact ih h.1 h.2 (fun op hop => hops op (List.mem_cons_of_mem _ hop))

/-! ### Claim C1 -/

/-- Start state for the C1 counterexample: one in-range connection
`a → b` with the `connect` defaults. -/
def c1State : SimState :=
  { store := []
    cm := { connections := [("a", [("b", ⟨0, 1/10, 0, 0⟩)])]
            interactionHistory := [], rules := defaultRules }
    mem := [] }

/-- A positive-strength interaction carrying a negative trust impact. -/
def c1Interaction : AgentInteraction :=
  { type := "chat", sourceId := "a", targetId := "b", timestamp := 1
    impact := { trust := -2, familiarity := 0, connectionStrength := 1 } }

/-- C1, counterexample to the claim as stated: from an in-range state, a
single `recordInteraction` with `connectionStrength > 0` but a negative
`impact.trust` drives the existing connection's trust to −19/10, outside
[0,1]. The positive default rule only caps at 1 and never floors at 0. -/
theorem claim_C1_counterexample :
    SimInv c1State ∧
    ∃ c, getConnection (runOps c1State [SimOp.recInteraction c1Interaction]).cm
        "a" "b" = some c ∧ c.trust < 0 := by
  constructor
  · refine ⟨?_, ?_⟩
    · intro x hx; simp [c1State, StoreInv] at hx
    · intro a ha b hb
      simp only [c1State] at ha
      rcases List.mem_singleton.mp ha with rfl
      rcases List.mem_singleton.mp hb with rfl
      exact ⟨⟨by norm_num, by norm_num⟩, ⟨by norm_num, by norm_num⟩,
        by norm_num, by norm_num⟩
  · refine ⟨⟨1, -19/10, 0, 1⟩, ?_, by norm_num⟩
    norm_num [runOps, stepOp, recordInteraction, getConnection, c1State,
      c1Interaction, defaultRules, positiveRule, negativeRule, assignConnection,
      lookupA, mapSet, List.filter_cons, min_def, max_def]

/-- C1 (amended): starting from any in-range state with the default rules,
every sequence of `updateTrait`, `updateMood`, `processEvent`-then-apply and
`recordInteraction` calls whose interactions carry sign-consistent impacts
(`impact.trust`, `impact.familiarity` nonnegative when
`connectionStrength > 0`; `impact.trust` nonpositive when
`connectionStrength < 0`) keeps every trait value, every mood field, every
connection's trust and familiarity in [0,1], and every connection value and
relationship strength in [-1,1]. -/
theorem claim_C1 (s : SimState) (ops : List SimOp) (hinv : SimInv s)
    (hrules : s.cm.rules = defaultRules) (hops : ∀ op ∈ ops, GoodOp op) :
    SimInv (runOps s ops) :=
  runOps_inv hinv hrules hops

/-- C1 witness: the amended theorem applied to a concrete state and a
concrete three-operation call sequence. -/
theorem claim_C1_witness :
    SimInv (runOps ⟨[("a", ⟨"a", [("x", ⟨"x", 1/2, "social", "d"⟩)], [],
        ⟨1/2, 1/2, 1/2, 1/2⟩, []⟩)], ConnectionManager.new, []⟩
      [SimOp.updTrait "a" "x" 5 false,
       SimOp.updMood "a" ⟨some 2, none, none, none⟩,
       SimOp.recInteraction ⟨"t", "a", "b", 0, ⟨1/10, 1/10, 1/10⟩⟩]) := by
  refine claim_C1 _ _ ⟨?_, ?_⟩ rfl ?_
  · intro x hx
    rcases List.mem_singleton.mp hx with rfl
    refine ⟨?_, ?_, ?_, ?_⟩
    · intro y hy
      rcases List.mem_singleton.mp hy with rfl
      exact ⟨by norm_num, by norm_num⟩
    · intro y hy; simp at hy
    · exact ⟨⟨by norm_num, by norm_num⟩, ⟨by norm_num, by norm_num⟩,
        ⟨by norm_num, by norm_num⟩, by norm_num, by norm_num⟩
    · intro y hy; simp at hy
  · intro a ha b hb
    simp [ConnectionManager.new] at ha
  · intro op hop
    rcases List.mem_cons.mp hop with rfl | hop
    · trivial
    rcases List.mem_cons.mp hop with rfl | hop
    · trivial
    rcases List.mem_singleton.mp hop with rfl
    exact ⟨fun _ => ⟨by norm_num, by norm_num⟩, fun h => absurd h (by norm_num)⟩

/-! ### Claims C2 and C3 -/

theorem lookupA_decayTraitUpdates {adaptive base : List (String × PersonalityTrait)}
    {name : String} {tr bt : PersonalityTrait}
    (ha : lookupA adaptive name = some tr) (hb : lookupA base name = some bt) :
    lookupA (decayTraitUpdates adaptive base) name =
      some ((bt.value - tr.value) * decayRate) := by
  induction adaptive with
  | nil => simp [lookupA] at ha
  | cons hd tl ih =>
      obtain ⟨k, t⟩ := hd
      by_cases hk : k = name
      · subst hk
        simp only [lookupA, if_true, eq_self_iff_true, Option.some.injEq] at ha
        subst ha
        simp [decayTraitUpdates, List.filterMap_cons, hb, lookupA]
      · simp only [lookupA, if_neg hk] at ha
        have htl := ih ha
        simp only [decayTraitUpdates, List.filterMap_cons] at htl ⊢
        cases hlb : lookupA base k with
        | none => simpa using htl
        | some b => simpa [lookupA, hk] using htl

/-- Personality used in the C2 counterexample: the adaptive trait `x` has no
matching base trait. -/
def c2Personality : Personality :=
  { id := "p", baseTraits := []
    adaptiveTraits := [("x", ⟨"x", 3/10, "social", "d"⟩)]
    mood := ⟨1/2, 1/2, 1/2, 1/2⟩, relationships := [] }

/-- C2, counterexample to the claim as stated: `decayPersonality` emits no
delta for an adaptive trait without a matching base trait, so `traitUpdates`
does not contain a delta for every adaptive trait. -/
theorem claim_C2_counterexample :
    lookupA c2Personality.adaptiveTraits "x" = some ⟨"x", 3/10, "social", "d"⟩ ∧
    lookupA (decayPersonality c2Personality).traitUpdates "x" = none := by
  constructor
  · simp [c2Personality, lookupA]
  · simp [c2Personality, decayPersonality, decayTraitUpdates, lookupA]

/-- C2 (amended): for every personality, `decayPersonality` returns trait
deltas `(base − adaptive) · 0.1` for every adaptive trait that has a
matching base trait (adaptive traits without one are skipped), mood deltas
`(0.5 − current) · 0.1` for each of the four mood fields, and an empty
relationship-update map. -/
theorem claim_C2 (p : Personality) :
    (∀ name tr bt, lookupA p.adaptiveTraits name = some tr →
      lookupA p.baseTraits name = some bt →
      lookupA (decayPersonality p).traitUpdates name =
        some ((bt.value - tr.value) * (1/10))) ∧
    (decayPersonality p).moodUpdates =
      ⟨some ((1/2 - p.mood.happiness) * (1/10)),
       some ((1/2 - p.mood.energy) * (1/10)),
       some ((1/2 - p.mood.stress) * (1/10)),
       some ((1/2 - p.mood.dominance) * (1/10))⟩ ∧
    (decayPersonality p).relationshipUpdates = [] := by
  refine ⟨?_, rfl, rfl⟩
  intro name tr bt ha hb
  exact lookupA_decayTraitUpdates ha hb

/-- C2 witness: the amended theorem evaluated on a personality whose
adaptive trait `x` (value 0.3) has base value 0.7. -/
theorem claim_C2_witness :
    lookupA (decayPersonality
      ⟨"p", [("x", ⟨"x", 7/10, "social", "d"⟩)],
        [("x", ⟨"x", 3/10, "social", "d"⟩)], ⟨0, 0, 0, 0⟩, []⟩).traitUpdates "x" =
      some ((7/10 - 3/10) * (1/10)) :=
  (claim_C2 _).1 "x" ⟨"x", 3/10, "social", "d"⟩ ⟨"x", 7/10, "social", "d"⟩
    (by simp [lookupA]) (by simp [lookupA])

/-- One decay application moves `old` to `nv` without overshooting
`target`: the distance contracts by exactly the factor 9/10 (so it strictly
decreases unless it is already zero), and the difference keeps its sign. -/
def ContractsToward (target old nv : ℚ) : Prop :=
  |nv - target| = (9/10) * |old - target| ∧
  (old ≠ target → |nv - target| < |old - target|) ∧
  (old = target → nv = target) ∧
  0 ≤ (nv - target) * (old - target)

theorem contractsToward_decay (target v : ℚ) :
    ContractsToward target v (v + (target - v) * decayRate) := by
  have key : v + (target - v) * decayRate - target = (9/10) * (v - target) := by
    simp only [decayRate]; ring
  refine ⟨?_, ?_, ?_, ?_⟩
  · rw [key, abs_mul]
    norm_num
  · intro h
    have hpos : 0 < |v - target| := abs_pos.mpr (sub_ne_zero.mpr h)
    rw [key, abs_mul]
    rw [show |(9/10 : ℚ)| = 9/10 by norm_num]
    linarith
  · intro h
    subst h
    simp [decayRate]
  · rw [key]
    nlinarith [sq_nonneg (v - target)]

/-- C3: each `decayPersonality`-then-apply iteration contracts every
adaptive-trait distance to its base value and every mood distance to 0.5 by
the factor 9/10: the distance strictly decreases (or stays at zero) and the
value never overshoots past the target. -/
theorem claim_C3 (p : Personality) :
    (∀ name tr bt, lookupA p.adaptiveTraits name = some tr →
      lookupA p.baseTraits name = some bt →
      ∃ δ, lookupA (decayPersonality p).traitUpdates name = some δ ∧
        ContractsToward bt.value tr.value (tr.value + δ)) ∧
    (∀ d, (decayPersonality p).moodUpdates.happiness = some d →
      ContractsToward (1/2) p.mood.happiness (p.mood.happiness + d)) ∧
    (∀ d, (decayPersonality p).moodUpdates.energy = some d →
      ContractsToward (1/2) p.mood.energy (p.mood.energy + d)) ∧
    (∀ d, (decayPersonality p).moodUpdates.stress = some d →
      ContractsToward (1/2) p.mood.stress (p.mood.stress + d)) ∧
    (∀ d, (decayPersonality p).moodUpdates.dominance = some d →
      ContractsToward (1/2) p.mood.dominance (p.mood.dominance + d)) := by
  refine ⟨?_, ?_, ?_, ?_, ?_⟩
  · intro name tr bt ha hb
    refine ⟨(bt.value - tr.value) * decayRate, lookupA_decayTraitUpdates ha hb, ?_⟩
    exact contractsToward_decay bt.value tr.value
  all_goals
    intro d hd
    simp only [decayPersonality, Option.some.injEq] at hd
    subst hd
    exact contractsToward_decay _ _

/-- C3 witness: the contraction applied to a concrete personality whose
adaptive trait `x` sits at 0.3 with base 0.7. -/
theorem claim_C3_witness :
    ∃ δ, lookupA (decayPersonality
        ⟨"p", [("x", ⟨"x", 7/10, "social", "d"⟩)],
          [("x", ⟨"x", 3/10, "social", "d"⟩)], ⟨1/2, 1/2, 1/2, 1/2⟩, []⟩).traitUpdates
        "x" = some δ ∧ ContractsToward (7/10) (3/10) (3/10 + δ) :=
  (claim_C3 _).1 "x" ⟨"x", 3/10, "social", "d"⟩ ⟨"x", 7/10, "social", "d"⟩
    (by simp [lookupA]) (by simp [lookupA])

/-! ### Claim C4 -/

theorem defaultRules_filter_pos {i : AgentInteraction}
    (h : 0 < i.impact.connectionStrength) :
    defaultRules.filter (fun r => r.condition i) = [positiveRule] := by
  simp [defaultRules, List.filter_cons, positiveRule, negativeRule, h, asymm h]

theorem defaultRules_fold_pos {i : AgentInteraction} {conn : ConnectionStrength}
    (h : 0 < i.impact.connectionStrength) :
    (defaultRules.filter (fun r => r.condition i)).foldl
      (fun c r => assignConnection c (r.impact i c)) conn =
    ⟨min 1 (conn.value + i.impact.connectionStrength),
     min 1 (conn.trust + i.impact.trust),
     min 1 (conn.familiarity + i.impact.familiarity),
     conn.lastInteraction⟩ := by
  rw [defaultRules_filter_pos h]
  simp [assignConnection, positiveRule]

theorem recordInteraction_existing {cm : ConnectionManager} {i : AgentInteraction}
    {inner : List (String × ConnectionStrength)} {conn : ConnectionStrength}
    (hin : lookupA cm.connections i.sourceId = some inner)
    (hconn : lookupA inner i.targetId = some conn) :
    getConnection (recordInteraction cm i).1 i.sourceId i.targetId =
      some { (cm.rules.filter (fun r => r.condition i)).foldl
          (fun c r => assignConnection c (r.impact i c)) conn
        with lastInteraction := i.timestamp } := by
  have hg : getConnection cm i.sourceId i.targetId = some conn := by
    simp [getConnection, hin, hconn]
  unfold recordInteraction
  rw [hg]
  dsimp only
  rw [hin]
  simp [getConnection, lookupA_mapSet_self]

/-- C4 (amended): a positive-strength interaction whose `impact.trust` and
`impact.familiarity` are nonnegative, recorded against an existing in-range
connection under the default rules, never decreases trust, value, or
familiarity, and caps each at 1. -/
theorem claim_C4 (cm : ConnectionManager) (i : AgentInteraction)
    (inner : List (String × ConnectionStrength)) (conn : ConnectionStrength)
    (hrules : cm.rules = defaultRules)
    (hin : lookupA cm.connections i.sourceId = some inner)
    (hconn : lookupA inner i.targetId = some conn)
    (hcs : 0 < i.impact.connectionStrength)
    (ht : 0 ≤ i.impact.trust) (hf : 0 ≤ i.impact.familiarity)
    (hinv : ConnInv conn) :
    ∃ c, getConnection (recordInteraction cm i).1 i.sourceId i.targetId = some c ∧
      conn.trust ≤ c.trust ∧ conn.value ≤ c.value ∧
      conn.familiarity ≤ c.familiarity ∧
      c.trust ≤ 1 ∧ c.value ≤ 1 ∧ c.familiarity ≤ 1 := by
  obtain ⟨⟨hv1, hv2⟩, ⟨ht1, ht2⟩, ⟨hf1, hf2⟩⟩ := hinv
  refine ⟨_, recordInteraction_existing hin hconn, ?_⟩
  rw [hrules, defaultRules_fold_pos hcs]
  refine ⟨le_min ht2 (by linarith), le_min hv2 (by linarith),
    le_min hf2 (by linarith), min_le_left _ _, min_le_left _ _, min_le_left _ _⟩

/-- Manager used in the C4 counterexample: one in-range connection `a → b`
with trust 0.5. -/
def c4Manager : ConnectionManager :=
  { connections := [("a", [("b", ⟨0, 1/2, 0, 0⟩)])]
    interactionHistory := [], rules := defaultRules }

/-- A positive-strength interaction with a negative trust impact. -/
def c4Interaction : AgentInteraction :=
  { type := "chat", sourceId := "a", targetId := "b", timestamp := 1
    impact := { trust := -3/10, familiarity := 0, connectionStrength := 1/10 } }

/-- C4, counterexample to the claim as stated: an interaction with
`connectionStrength > 0` but `impact.trust = -0.3` lowers the existing
connection's trust from 0.5 to 0.2, so trust is not "never decreased". -/
theorem claim_C4_counterexample :
    getConnection c4Manager "a" "b" = some ⟨0, 1/2, 0, 0⟩ ∧
    0 < c4Interaction.impact.connectionStrength ∧
    ∃ c, getConnection (recordInteraction c4Manager c4Interaction).1 "a" "b" =
        some c ∧ c.trust < 1/2 := by
  refine ⟨by norm_num [getConnection, c4Manager, lookupA], by norm_num [c4Interaction], ?_⟩
  refine ⟨⟨1/10, 1/5, 0, 1⟩, ?_, by norm_num⟩
  norm_num [recordInteraction, getConnection, c4Manager, c4Interaction,
    defaultRules, positiveRule, negativeRule, assignConnection, lookupA, mapSet,
    List.filter_cons, min_def, max_def]

/-- C4 witness: the amended theorem applied to a concrete manager and a
concrete sign-consistent positive interaction. -/
theorem claim_C4_witness :
    ∃ c, getConnection (recordInteraction
        ⟨[("a", [("b", ⟨0, 1/10, 0, 0⟩)])], [], defaultRules⟩
        ⟨"t", "a", "b", 2, ⟨1/10, 2/10, 3/10⟩⟩).1 "a" "b" = some c ∧
      (1/10 : ℚ) ≤ c.trust ∧ (0 : ℚ) ≤ c.value ∧ (0 : ℚ) ≤ c.familiarity ∧
      c.trust ≤ 1 ∧ c.value ≤ 1 ∧ c.familiarity ≤ 1 :=
  claim_C4 ⟨[("a", [("b", ⟨0, 1/10, 0, 0⟩)])], [], defaultRules⟩
    ⟨"t", "a", "b", 2, ⟨1/10, 2/10, 3/10⟩⟩ [("b", ⟨0, 1/10, 0, 0⟩)]
    ⟨0, 1/10, 0, 0⟩ rfl (by simp [lookupA]) (by simp [lookupA]) (by norm_num)
    (by norm_num) (by norm_num)
    ⟨⟨by norm_num, by norm_num⟩, ⟨by norm_num, by norm_num⟩, by norm_num, by norm_num⟩

/-! ### Claims C5, C6, C7 -/

/-- C5: `processEvent` of a `socialInteraction` event with intensity 1,
valence 0.6, and source `X` on a personality whose id differs from `X`
yields a sociability trait delta of 0.03 and a relationship update for `X`
equal to clamp(-1, 1, currentRelationship + 0.6 · 1 · 0.05), where a missing
current relationship counts as 0. -/
theorem claim_C5 (p : Personality) (mem : EmotionalMemory) (h : p.id ≠ "X") :
    lookupA (processEvent mem p ⟨"socialInteraction", 1, 6/10, "X"⟩).1.traitUpdates
      "sociability" = some (3/100) ∧
    lookupA (processEvent mem p ⟨"socialInteraction", 1, 6/10, "X"⟩).1.relationshipUpdates
      "X" = some (max (-1) (min 1
        ((lookupA p.relationships "X").getD 0 + (6/10) * 1 * (5/100)))) := by
  constructor
  · simp only [processEvent, calculateTraitUpdates]
    norm_num [lookupA, adaptationRate]
  · simp only [processEvent, calculateRelationshipUpdates]
    rw [if_pos ⟨by simp, fun hc => h hc.symm⟩]
    simp [lookupA, adaptationRate]

/-- C5 witness: the theorem evaluated on a personality with id `p` holding
a current relationship of 0.5 with `X`. -/
theorem claim_C5_witness :
    lookupA (processEvent [] ⟨"p", [], [], ⟨0, 0, 0, 0⟩, [("X", 1/2)]⟩
        ⟨"socialInteraction", 1, 6/10, "X"⟩).1.traitUpdates "sociability" =
      some (3/100) ∧
    lookupA (processEvent [] ⟨"p", [], [], ⟨0, 0, 0, 0⟩, [("X", 1/2)]⟩
        ⟨"socialInteraction", 1, 6/10, "X"⟩).1.relationshipUpdates "X" =
      some (max (-1) (min 1
        ((lookupA [("X", (1/2 : ℚ))] "X").getD 0 + (6/10) * 1 * (5/100)))) :=
  claim_C5 ⟨"p", [], [], ⟨0, 0, 0, 0⟩, [("X", 1/2)]⟩ [] (by simp)

/-- C6: for every personality and event, the mood-delta component of
`processEvent` is happiness = valence · intensity, energy = intensity · 1
when valence > 0 else intensity · (−0.5), stress = intensity · 1 when
valence < 0 else intensity · (−0.5); only for a `conflict` event the stress
delta is replaced by min(1, stress + 0.2) and dominance is 0.1 when
valence > 0 else −0.1, dominance being absent for every other event type. -/
theorem claim_C6 (p : Personality) (mem : EmotionalMemory) (e : EmotionalEvent) :
    (processEvent mem p e).1.moodUpdates =
      { happiness := some (e.valence * e.intensity)
        energy := some (e.intensity * (if 0 < e.valence then 1 else -(1/2)))
        stress :=
          if e.type = "conflict" then
            some (min 1 (e.intensity * (if e.valence < 0 then 1 else -(1/2)) + 2/10))
          else some (e.intensity * (if e.valence < 0 then 1 else -(1/2)))
        dominance :=
          if e.type = "conflict" then
            some (if 0 < e.valence then 1/10 else -(1/10))
          else none } := by
  simp only [processEvent, calculateMoodUpdates]
  by_cases h : e.type = "conflict" <;> simp [h]

/-- Events used in the C7 theorems. -/
def evA : EmotionalEvent := ⟨"ea", 1, 0, "s"⟩

/-- Second event for C7. -/
def evB : EmotionalEvent := ⟨"eb", 1, 0, "s"⟩

/-- Third event for C7. -/
def evC : EmotionalEvent := ⟨"ec", 1, 0, "s"⟩

/-- C7, counterexample to the claim as stated: with the given limit 0 the
claim demands the most recent zero entries, the empty list, but a JavaScript
`0` is falsy, so `limit ? memory.slice(-limit) : memory` returns the full
log. -/
theorem claim_C7_counterexample :
    getEmotionalMemory [("a", [evA])] "a" (some 0) = [evA] ∧
    getEmotionalMemory [("a", [evA])] "a" (some 0) ≠ [] := by
  constructor
  · simp [getEmotionalMemory, lookupA]
  · simp [getEmotionalMemory, lookupA]

/-- C7 (amended): with no limit, `getEmotionalMemory` returns the full log
in insertion order; with a positive limit it returns the tail of the log of
length min(limit, log length) in insertion order (a limit of 0 is falsy in
the source and also returns the full log); in particular, after appending
events a, b, c to a fresh log, limit 2 returns [b, c]. -/
theorem claim_C7 (mem : EmotionalMemory) (agentId : String) (l : ℕ) (hl : 0 < l) :
    getEmotionalMemory mem agentId none = (lookupA mem agentId).getD [] ∧
    (∃ pre, pre ++ getEmotionalMemory mem agentId (some l) =
      getEmotionalMemory mem agentId none) ∧
    (getEmotionalMemory mem agentId (some l)).length =
      min l (getEmotionalMemory mem agentId none).length ∧
    (∀ p : Personality,
      getEmotionalMemory
        (processEvent (processEvent (processEvent [] p evA).2 p evB).2 p evC).2
        p.id (some 2) = [evB, evC]) := by
  have hl0 : l ≠ 0 := Nat.pos_iff_ne_zero.mp hl
  refine ⟨rfl, ?_, ?_, ?_⟩
  · refine ⟨((lookupA mem agentId).getD []).take
      (((lookupA mem agentId).getD []).length - l), ?_⟩
    simp [getEmotionalMemory, hl0, List.take_append_drop]
  · simp only [getEmotionalMemory, hl0, ite_false, List.length_drop]
    omega
  · intro p
    simp [processEvent, getEmotionalMemory, mapSet, lookupA, List.drop]

/-- C7 witness: the amended theorem evaluated at limit 2 on a three-event
log. -/
theorem claim_C7_witness :
    (getEmotionalMemory [("a", [evA, evB, evC])] "a" (some 2)).length =
      min 2 (getEmotionalMemory [("a", [evA, evB, evC])] "a" none).length :=
  (claim_C7 [("a", [evA, evB, evC])] "a" 2 (by norm_num)).2.2.1

/-! ### Claims C8, C9, C10 -/

/-- C8: recording an interaction for a pair with no existing connection
appends it to that pair's history (it is retrievable afterwards) and changes
no connection state: `getConnection` still returns none. The source function
contains no throw; the embedding is a total function, so no error is
raised. -/
theorem claim_C8 (cm : ConnectionManager) (i : AgentInteraction)
    (h : getConnection cm i.sourceId i.targetId = none) :
    (recordInteraction cm i).1.connections = cm.connections ∧
    getConnection (recordInteraction cm i).1 i.sourceId i.targetId = none ∧
    lookupA (recordInteraction cm i).1.interactionHistory
        (i.sourceId ++ "-" ++ i.targetId) =
      some ((lookupA cm.interactionHistory (i.sourceId ++ "-" ++ i.targetId)).getD []
        ++ [i]) := by
  unfold recordInteraction
  rw [h]
  exact ⟨rfl, h, lookupA_mapSet_self _ _ _⟩

/-- C8 witness: the theorem applied to a fresh manager and a concrete
interaction. -/
theorem claim_C8_witness :
    (recordInteraction ConnectionManager.new ⟨"t", "a", "b", 0, ⟨0, 0, 0⟩⟩).1.connections =
      ConnectionManager.new.connections ∧
    getConnection (recordInteraction ConnectionManager.new
      ⟨"t", "a", "b", 0, ⟨0, 0, 0⟩⟩).1 "a" "b" = none ∧
    lookupA (recordInteraction ConnectionManager.new
        ⟨"t", "a", "b", 0, ⟨0, 0, 0⟩⟩).1.interactionHistory ("a" ++ "-" ++ "b") =
      some ((lookupA ConnectionManager.new.interactionHistory ("a" ++ "-" ++ "b")).getD []
        ++ [⟨"t", "a", "b", 0, ⟨0, 0, 0⟩⟩]) :=
  claim_C8 ConnectionManager.new ⟨"t", "a", "b", 0, ⟨0, 0, 0⟩⟩ rfl

/-- C9, counterexample to the claim as stated: `connect` stores the initial
overrides without any clamping, so an initial trust of 5 is stored as 5,
outside [0,1]. -/
theorem claim_C9_counterexample :
    ∃ c, getConnection (connect ConnectionManager.new "a" "b"
        ⟨none, some 5, none⟩ 0) "a" "b" = some c ∧ c.trust = 5 ∧ ¬ c.trust ≤ 1 := by
  refine ⟨⟨0, 5, 0, 0⟩, ?_, rfl, by norm_num⟩
  simp [connect, getConnection, ConnectionManager.new, lookupA, mapSet,
    lookupA_mapSet_self]

/-- C9 (amended): values passed to `updateTrait` and `updateMood` are stored
clamped into [0,1] and never rejected, but `connect` stores its initial
overrides exactly as given, without clamping (only absent fields fall back
to the defaults value 0, trust 0.1, familiarity 0). -/
theorem claim_C9 :
    (∀ (ps : List (String × Personality)) (agentId traitName : String) (value : ℚ)
      (adaptive : Bool) (p : Personality) (tr : PersonalityTrait),
      lookupA ps agentId = some p →
      lookupA (if adaptive then p.adaptiveTraits else p.baseTraits) traitName = some tr →
      ∃ p', lookupA (updateTrait ps agentId traitName value adaptive) agentId = some p' ∧
        lookupA (if adaptive then p'.adaptiveTraits else p'.baseTraits) traitName =
          some { tr with value := clamp01 value } ∧
        0 ≤ clamp01 value ∧ clamp01 value ≤ 1) ∧
    (∀ (ps : List (String × Personality)) (agentId : String) (mu : MoodUpdates)
      (p : Personality), lookupA ps agentId = some p →
      ∃ p', lookupA (updateMood ps agentId mu) agentId = some p' ∧
        (∀ v, mu.happiness = some v →
          p'.mood.happiness = clamp01 v ∧ 0 ≤ p'.mood.happiness ∧ p'.mood.happiness ≤ 1) ∧
        (∀ v, mu.energy = some v →
          p'.mood.energy = clamp01 v ∧ 0 ≤ p'.mood.energy ∧ p'.mood.energy ≤ 1) ∧
        (∀ v, mu.stress = some v →
          p'.mood.stress = clamp01 v ∧ 0 ≤ p'.mood.stress ∧ p'.mood.stress ≤ 1) ∧
        (∀ v, mu.dominance = some v →
          p'.mood.dominance = clamp01 v ∧ 0 ≤ p'.mood.dominance ∧ p'.mood.dominance ≤ 1)) ∧
    (∀ (cm : ConnectionManager) (sourceId targetId : String)
      (init : InitialStrength) (now : ℚ),
      getConnection (connect cm sourceId targetId init now) sourceId targetId =
        some ⟨init.value.getD 0, init.trust.getD (1/10), init.familiarity.getD 0, now⟩) := by
  refine ⟨?_, ?_, ?_⟩
  · intro ps agentId traitName value adaptive p tr hp htr
    unfold updateTrait
    rw [hp]
    cases adaptive with
    | true =>
        simp only [if_true] at htr ⊢
        rw [htr]
        exact ⟨_, lookupA_mapSet_self _ _ _, lookupA_mapSet_self _ _ _,
          clamp01_mem value⟩
    | false =>
        simp only [Bool.false_eq_true, if_false] at htr ⊢
        rw [htr]
        exact ⟨_, lookupA_mapSet_self _ _ _, lookupA_mapSet_self _ _ _,
          clamp01_mem value⟩
  · intro ps agentId mu p hp
    unfold updateMood
    rw [hp]
    refine ⟨_, lookupA_mapSet_self _ _ _, ?_, ?_, ?_, ?_⟩ <;>
      (intro v hv; simp only [updateMoodField, hv]; exact ⟨trivial, clamp01_mem v⟩)
  · intro cm sourceId targetId init now
    simp [connect, getConnection, lookupA_mapSet_self]

/-- C9 witness: the amended theorem's `connect` component evaluated on a
fresh manager with out-of-range overrides, stored unclamped. -/
theorem claim_C9_witness :
    getConnection (connect ConnectionManager.new "a" "b" ⟨some 2, some 5, none⟩ 7)
      "a" "b" = some ⟨2, 5, 0, 7⟩ :=
  claim_C9.2.2 ConnectionManager.new "a" "b" ⟨some 2, some 5, none⟩ 7

/-- C10: `disconnect` emits the `disconnected` notification unconditionally,
also when no (sourceId, targetId) connection exists, and in that case leaves
the connection map unchanged. -/
theorem claim_C10 (cm : ConnectionManager) (sourceId targetId : String) :
    (disconnect cm sourceId targetId).2 = ["disconnected"] ∧
    (getConnection cm sourceId targetId = none →
      (disconnect cm sourceId targetId).1.connections = cm.connections) := by
  refine ⟨rfl, ?_⟩
  intro h
  unfold getConnection at h
  unfold disconnect
  cases hs : lookupA cm.connections sourceId with
  | none => rfl
  | some inner =>
      rw [hs, Option.some_bind] at h
      dsimp only
      rw [lookupA_removeA inner targetId h]
      exact mapSet_lookup_self hs

/-- C10 witness: the theorem applied to a manager without the connection
`a → b` (it holds only `a → c`). -/
theorem claim_C10_witness :
    (disconnect ⟨[("a", [("c", ⟨0, 1/10, 0, 0⟩)])], [], defaultRules⟩ "a" "b").2 =
      ["disconnected"] ∧
    (disconnect ⟨[("a", [("c", ⟨0, 1/10, 0, 0⟩)])], [], defaultRules⟩ "a" "b").1.connections =
      [("a", [("c", ⟨0, 1/10, 0, 0⟩)])] :=
  ⟨(claim_C10 ⟨[("a", [("c", ⟨0, 1/10, 0, 0⟩)])], [], defaultRules⟩ "a" "b").1,
   (claim_C10 ⟨[("a", [("c", ⟨0, 1/10, 0, 0⟩)])], [], defaultRules⟩ "a" "b").2
     (by simp [getConnection, lookupA])⟩

end BulbAI
